import Mathlib

/-!
Verification development for the dist-keras `distributed.py` module.

The Python source is shallowly embedded: pure helper functions become Lean
functions, the EASGD coordinator's mutable state (`self.model`, `self.gradients`,
`self.ready`, `self.iteration`) becomes an explicit `CoordState` record, and
each Flask route handler becomes a state-transition function transcribed
line by line from the handler body.  External collaborators (Keras models,
Spark dataframes) are modelled by their documented contracts, parameterized
where their behaviour is opaque (e.g. the weights a freshly built model
carries, or the weight transformation performed by `model.fit`).
-/

set_option autoImplicit false

/-- A weight tensor, modelled as a flat list of integers (elementwise
arithmetic is all the code uses). -/
abbrev Tensor := List Int

/-- A set of model weights: an ordered sequence of weight tensors, as
returned by `model.get_weights()`. -/
abbrev Weights := List Tensor

/-- Elementwise difference of two weight sets, per tensor: the meaning of
`np.asarray(model.get_weights()) - W` in `EASGDWorker.train`. -/
def subWeights (a b : Weights) : Weights :=
  List.zipWith (fun t u => List.zipWith (fun x y => x - y) t u) a b

/-- Python dict assignment `d[k] = v` on an association list with unique
keys: overwrite the entry if the key is present, append it otherwise. -/
def mapInsert {κ α : Type} [DecidableEq κ] (k : κ) (v : α) :
    List (κ × α) → List (κ × α)
  | [] => [(k, v)]
  | (k0, v0) :: rest =>
    if k0 = k then (k, v) :: rest else (k0, v0) :: mapInsert k v rest

/-- Python dict lookup `d[k]` (as an `Option`, `none` when the key is absent). -/
def mapLookup {κ α : Type} [DecidableEq κ] (k : κ) :
    List (κ × α) → Option α
  | [] => none
  | (k0, v0) :: rest => if k0 = k then some v0 else mapLookup k rest

theorem mapLookup_mapInsert_self {κ α : Type} [DecidableEq κ]
    (k : κ) (v : α) (l : List (κ × α)) :
    mapLookup k (mapInsert k v l) = some v := by
  induction l with
  | nil => simp [mapInsert, mapLookup]
  | cons p rest ih =>
    obtain ⟨k0, v0⟩ := p
    by_cases h : k0 = k
    · simp [mapInsert, mapLookup, h]
    · simp [mapInsert, mapLookup, h, ih]

theorem mapLookup_mapInsert_ne {κ α : Type} [DecidableEq κ]
    (k k1 : κ) (v : α) (l : List (κ × α)) (h : k1 ≠ k) :
    mapLookup k1 (mapInsert k v l) = mapLookup k1 l := by
  have hk : k ≠ k1 := Ne.symm h
  induction l with
  | nil => simp [mapInsert, mapLookup, hk]
  | cons p rest ih =>
    obtain ⟨k0, v0⟩ := p
    by_cases h0 : k0 = k
    · subst h0
      simp [mapInsert, mapLookup, hk]
    · simp [mapInsert, mapLookup, h0, ih]

theorem mapInsert_length_of_lookup_none {κ α : Type} [DecidableEq κ]
    (k : κ) (v : α) (l : List (κ × α)) (h : mapLookup k l = none) :
    (mapInsert k v l).length = l.length + 1 := by
  induction l with
  | nil => rfl
  | cons p rest ih =>
    obtain ⟨k0, v0⟩ := p
    by_cases h0 : k0 = k
    · simp [mapLookup, h0] at h
    · simp only [mapLookup, if_neg h0] at h
      simp [mapInsert, h0, ih h]

theorem mapInsert_length_of_lookup_some {κ α : Type} [DecidableEq κ]
    (k : κ) (v v0 : α) (l : List (κ × α)) (h : mapLookup k l = some v0) :
    (mapInsert k v l).length = l.length := by
  induction l generalizing v0 with
  | nil => simp [mapLookup] at h
  | cons p rest ih =>
    obtain ⟨k1, v1⟩ := p
    by_cases h0 : k1 = k
    · simp [mapInsert, h0]
    · simp only [mapLookup, if_neg h0] at h
      simp [mapInsert, h0, ih v0 h]

namespace EASGD

/-- The coordinator's mutable state, as held by an `EASGD` trainer instance:
`self.model`'s weights (the center variable), `self.gradients` (the pending
per-worker gradients, a dict keyed by worker id), `self.ready` and
`self.iteration`. -/
structure CoordState where
  centerWeights : Weights
  gradients : List (Nat × Weights)
  ready : Bool
  iteration : Nat
deriving DecidableEq, Repr

/-- Transcription of `EASGD.get_ready` (the value read under the mutex and
returned by the `/ready` route). -/
def get_ready (s : CoordState) : Bool :=
  s.ready

/-- Transcription of the `/center_variable` route body: the weights of
`self.model`, read under the mutex. -/
def center_variable (s : CoordState) : Weights :=
  s.centerWeights

/-- Transcription of `EASGD.process_gradients`: its body only prints a
message, so as a state transformation it returns the state unchanged. -/
def process_gradients (s : CoordState) : CoordState :=
  s

/-- Transcription of the `/update` route body: set ready to `False`, store
the worker's gradient in `self.gradients`, and, when all `num_workers`
gradients are present, call `process_gradients`, clear the dict, set ready
to `True` and increment `self.iteration`. -/
def update (numWorkers workerId : Nat) (gradient : Weights)
    (s : CoordState) : CoordState :=
  let grads := mapInsert workerId gradient s.gradients
  if grads.length = numWorkers then
    let s1 := process_gradients { s with ready := false, gradients := grads }
    { s1 with gradients := [], ready := true, iteration := s1.iteration + 1 }
  else
    { s with ready := false, gradients := grads }

/-- A sequence of `/update` calls processed in order by the coordinator. -/
def submitRun (numWorkers : Nat) (subs : List (Nat × Weights))
    (s : CoordState) : CoordState :=
  subs.foldl (fun st p => update numWorkers p.1 p.2 st) s

theorem submitRun_nil (numWorkers : Nat) (s : CoordState) :
    submitRun numWorkers [] s = s :=
  rfl

theorem submitRun_cons (numWorkers : Nat) (p : Nat × Weights)
    (rest : List (Nat × Weights)) (s : CoordState) :
    submitRun numWorkers (p :: rest) s =
      submitRun numWorkers rest (update numWorkers p.1 p.2 s) :=
  rfl

theorem update_of_full (numWorkers workerId : Nat) (gradient : Weights)
    (s : CoordState)
    (h : (mapInsert workerId gradient s.gradients).length = numWorkers) :
    update numWorkers workerId gradient s =
      { centerWeights := s.centerWeights, gradients := [], ready := true,
        iteration := s.iteration + 1 } := by
  simp [update, process_gradients, h]

theorem update_of_not_full (numWorkers workerId : Nat) (gradient : Weights)
    (s : CoordState)
    (h : (mapInsert workerId gradient s.gradients).length ≠ numWorkers) :
    update numWorkers workerId gradient s =
      { centerWeights := s.centerWeights,
        gradients := mapInsert workerId gradient s.gradients, ready := false,
        iteration := s.iteration } := by
  simp [update, process_gradients, h]

theorem submitRun_complete (numWorkers : Nat) :
    ∀ (subs : List (Nat × Weights)) (s : CoordState),
      (subs.map Prod.fst).Nodup →
      (∀ k ∈ subs.map Prod.fst, mapLookup k s.gradients = none) →
      s.gradients.length + subs.length = numWorkers →
      subs ≠ [] →
      submitRun numWorkers subs s =
        { centerWeights := s.centerWeights, gradients := [], ready := true,
          iteration := s.iteration + 1 } := by
  intro subs
  induction subs with
  | nil => intro s _ _ _ hne; exact absurd rfl hne
  | cons p rest ih =>
    intro s hnd hfresh hlen _
    obtain ⟨w, g⟩ := p
    have hwfresh : mapLookup w s.gradients = none := by
      apply hfresh
      simp
    have hinslen : (mapInsert w g s.gradients).length = s.gradients.length + 1 :=
      mapInsert_length_of_lookup_none w g s.gradients hwfresh
    cases rest with
    | nil =>
      have hfull : (mapInsert w g s.gradients).length = numWorkers := by
        simp only [List.length_cons, List.length_nil] at hlen
        omega
      rw [submitRun_cons, submitRun_nil]
      exact update_of_full numWorkers w g s hfull
    | cons q rest2 =>
      have hnotfull : (mapInsert w g s.gradients).length ≠ numWorkers := by
        simp only [List.length_cons] at hlen
        omega
      rw [submitRun_cons]
      rw [update_of_not_full numWorkers w g s hnotfull]
      have hnd2 : ((q :: rest2).map Prod.fst).Nodup := by
        simp only [List.map_cons, List.nodup_cons] at hnd ⊢
        exact ⟨hnd.2.1, hnd.2.2⟩
      have hwnot : w ∉ (q :: rest2).map Prod.fst := by
        simp only [List.map_cons, List.nodup_cons] at hnd
        exact hnd.1
      have hfresh2 : ∀ k ∈ (q :: rest2).map Prod.fst,
          mapLookup k (mapInsert w g s.gradients) = none := by
        intro k hk
        have hkw : k ≠ w := by
          intro e
          exact hwnot (e ▸ hk)
        rw [mapLookup_mapInsert_ne w k g s.gradients hkw]
        exact hfresh k (List.mem_cons_of_mem _ hk)
      have hlen2 : (mapInsert w g s.gradients).length +
          ((q :: rest2) : List (Nat × Weights)).length = numWorkers := by
        simp only [List.length_cons] at hlen ⊢
        omega
      exact ih _ hnd2 hfresh2 hlen2 (by simp)

theorem submitRun_below (numWorkers : Nat) :
    ∀ (subs : List (Nat × Weights)) (s : CoordState),
      (subs.map Prod.fst).Nodup →
      (∀ k ∈ subs.map Prod.fst, mapLookup k s.gradients = none) →
      s.gradients.length + subs.length < numWorkers →
      (submitRun numWorkers subs s).gradients.length =
        s.gradients.length + subs.length ∧
      (subs ≠ [] → (submitRun numWorkers subs s).ready = false) := by
  intro subs
  induction subs with
  | nil =>
    intro s _ _ _
    exact ⟨rfl, fun hne => absurd rfl hne⟩
  | cons p rest ih =>
    intro s hnd hfresh hlen
    obtain ⟨w, g⟩ := p
    have hwfresh : mapLookup w s.gradients = none := by
      apply hfresh
      simp
    have hinslen : (mapInsert w g s.gradients).length = s.gradients.length + 1 :=
      mapInsert_length_of_lookup_none w g s.gradients hwfresh
    have hnotfull : (mapInsert w g s.gradients).length ≠ numWorkers := by
      simp only [List.length_cons] at hlen
      omega
    rw [submitRun_cons, update_of_not_full numWorkers w g s hnotfull]
    have hnd2 : (rest.map Prod.fst).Nodup := by
      simp only [List.map_cons, List.nodup_cons] at hnd
      exact hnd.2
    have hwnot : w ∉ rest.map Prod.fst := by
      simp only [List.map_cons, List.nodup_cons] at hnd
      exact hnd.1
    have hfresh2 : ∀ k ∈ rest.map Prod.fst,
        mapLookup k (mapInsert w g s.gradients) = none := by
      intro k hk
      have hkw : k ≠ w := by
        intro e
        exact hwnot (e ▸ hk)
      rw [mapLookup_mapInsert_ne w k g s.gradients hkw]
      exact hfresh k (List.mem_cons_of_mem _ hk)
    have hlen2 : (mapInsert w g s.gradients).length + rest.length < numWorkers := by
      simp only [List.length_cons] at hlen
      omega
    have hres := ih ⟨s.centerWeights, mapInsert w g s.gradients, false,
      s.iteration⟩ hnd2 hfresh2 hlen2
    refine ⟨?_, fun _ => ?_⟩
    · rw [hres.1]
      simp only [List.length_cons, hinslen]
      omega
    · cases rest with
      | nil => rfl
      | cons q rest2 => exact hres.2 (by simp)

end EASGD

/-- C1: for every numWorkers N ≥ 1, starting from an inter-iteration state
with the pending-gradient dict empty, after exactly N `/update` submissions
with N distinct worker ids taken from [0, N), the coordinator's pending
dict is empty, its iteration counter has increased by exactly 1, and its
ready flag is true. -/
theorem easgd_convergent_aggregation_count (n : Nat) (s : EASGD.CoordState)
    (subs : List (Nat × Weights))
    (hn : 1 ≤ n) (h0 : s.gradients = [])
    (hnd : (subs.map Prod.fst).Nodup)
    (_hrange : ∀ i ∈ subs.map Prod.fst, i < n)
    (hlen : subs.length = n) :
    (EASGD.submitRun n subs s).gradients = [] ∧
    (EASGD.submitRun n subs s).iteration = s.iteration + 1 ∧
    EASGD.get_ready (EASGD.submitRun n subs s) = true := by
  have hfresh : ∀ k ∈ subs.map Prod.fst, mapLookup k s.gradients = none := by
    intro k _
    rw [h0]
    rfl
  have hslen : s.gradients.length + subs.length = n := by
    rw [h0, hlen]
    simp
  have hne : subs ≠ [] := by
    intro e
    rw [e] at hlen
    simp at hlen
    omega
  rw [EASGD.submitRun_complete n subs s hnd hfresh hslen hne]
  exact ⟨rfl, rfl, rfl⟩

/-- Witness for C1 at N = 2 with workers 0 and 1 submitting once each. -/
theorem easgd_convergent_aggregation_count_witness :
    (EASGD.submitRun 2 [(0, [[1]]), (1, [[2]])]
      ⟨[[0]], [], true, 0⟩).gradients = [] ∧
    (EASGD.submitRun 2 [(0, [[1]]), (1, [[2]])]
      ⟨[[0]], [], true, 0⟩).iteration = (0 : Nat) + 1 ∧
    EASGD.get_ready (EASGD.submitRun 2 [(0, [[1]]), (1, [[2]])]
      ⟨[[0]], [], true, 0⟩) = true :=
  easgd_convergent_aggregation_count 2 ⟨[[0]], [], true, 0⟩
    [(0, [[1]]), (1, [[2]])] (by decide) rfl (by decide) (by decide) rfl

/-- C4: in an iteration window of numWorkers N that starts with an empty
pending dict and receives N submissions with distinct worker ids from
[0, N), the `/ready` route reports false after every prefix of k
submissions with 1 ≤ k ≤ N - 1, and reports true after the N-th. -/
theorem easgd_readiness_gating (n k : Nat) (s : EASGD.CoordState)
    (subs : List (Nat × Weights))
    (h0 : s.gradients = [])
    (hnd : (subs.map Prod.fst).Nodup)
    (_hrange : ∀ i ∈ subs.map Prod.fst, i < n)
    (hlen : subs.length = n)
    (hk1 : 1 ≤ k) (hk2 : k ≤ n - 1) :
    EASGD.get_ready (EASGD.submitRun n (subs.take k) s) = false ∧
    EASGD.get_ready (EASGD.submitRun n subs s) = true := by
  have hn2 : 2 ≤ n := by omega
  constructor
  · have hndk : ((subs.take k).map Prod.fst).Nodup := by
      rw [List.map_take]
      exact hnd.sublist (List.take_sublist k (subs.map Prod.fst))
    have hfreshk : ∀ i ∈ (subs.take k).map Prod.fst,
        mapLookup i s.gradients = none := by
      intro i _
      rw [h0]
      rfl
    have htklen : (subs.take k).length = k := by
      rw [List.length_take]
      omega
    have hltn : s.gradients.length + (subs.take k).length < n := by
      rw [h0, htklen]
      simp only [List.length_nil]
      omega
    have hne : subs.take k ≠ [] := by
      intro e
      rw [e] at htklen
      simp at htklen
      omega
    exact (EASGD.submitRun_below n (subs.take k) s hndk hfreshk hltn).2 hne
  · have hfresh : ∀ i ∈ subs.map Prod.fst, mapLookup i s.gradients = none := by
      intro i _
      rw [h0]
      rfl
    have hslen : s.gradients.length + subs.length = n := by
      rw [h0, hlen]
      simp
    have hne : subs ≠ [] := by
      intro e
      rw [e] at hlen
      simp at hlen
      omega
    rw [EASGD.submitRun_complete n subs s hnd hfresh hslen hne]
    rfl

/-- Witness for C4 at N = 2, k = 1: ready is false after worker 0's
submission and true after worker 1's. -/
theorem easgd_readiness_gating_witness :
    EASGD.get_ready (EASGD.submitRun 2
      ([(0, [[1]]), (1, [[2]])].take 1) ⟨[[0]], [], true, 0⟩) = false ∧
    EASGD.get_ready (EASGD.submitRun 2 [(0, [[1]]), (1, [[2]])]
      ⟨[[0]], [], true, 0⟩) = true :=
  easgd_readiness_gating 2 1 ⟨[[0]], [], true, 0⟩ [(0, [[1]]), (1, [[2]])]
    rfl (by decide) (by decide) rfl (by decide) (by decide)

/-- C3 counterexample: the claim asserts that for at least some inputs the
aggregating submission changes the center weights, but no `/update` call —
aggregating or not — ever changes `centerWeights`, because
`process_gradients` only prints. -/
theorem easgd_aggregation_never_updates_center :
    ¬ ∃ (n w : Nat) (g : Weights) (s : EASGD.CoordState),
        (EASGD.update n w g s).centerWeights ≠ s.centerWeights := by
  rintro ⟨n, w, g, s, h⟩
  apply h
  simp only [EASGD.update, EASGD.process_gradients]
  by_cases hfull : (mapInsert w g s.gradients).length = n
  · rw [if_pos hfull]
  · rw [if_neg hfull]

/-- C3 amended: when a submission completes the full set, the step clears
the pending dict, increments the iteration counter and sets the ready
flag, but leaves the center weights exactly equal to their pre-aggregation
value (the aggregation applies no combination of the pending gradients to
the center variable). -/
theorem easgd_aggregation_step_effect (n w : Nat) (g : Weights)
    (s : EASGD.CoordState)
    (hfull : (mapInsert w g s.gradients).length = n) :
    EASGD.center_variable (EASGD.update n w g s) = EASGD.center_variable s ∧
    (EASGD.update n w g s).gradients = [] ∧
    (EASGD.update n w g s).ready = true ∧
    (EASGD.update n w g s).iteration = s.iteration + 1 := by
  rw [EASGD.update_of_full n w g s hfull]
  exact ⟨rfl, rfl, rfl, rfl⟩

/-- Witness for the amended C3: with N = 1 a single submission aggregates,
yet the center weights stay [[0]] whatever the gradient. -/
theorem easgd_aggregation_step_effect_witness :
    EASGD.center_variable (EASGD.update 1 0 [[5]] ⟨[[0]], [], true, 0⟩) =
      EASGD.center_variable ⟨[[0]], [], true, 0⟩ ∧
    (EASGD.update 1 0 [[5]] ⟨[[0]], [], true, 0⟩).gradients = [] ∧
    (EASGD.update 1 0 [[5]] ⟨[[0]], [], true, 0⟩).ready = true ∧
    (EASGD.update 1 0 [[5]] ⟨[[0]], [], true, 0⟩).iteration = (0 : Nat) + 1 :=
  easgd_aggregation_step_effect 1 0 [[5]] ⟨[[0]], [], true, 0⟩ (by decide)

/-- C5: a duplicate submission for worker w in a window that is still
waiting (pending size ≠ N) raises no error, overwrites w's pending entry
(size unchanged), does not aggregate; any later submission by a different
worker that completes the set sees w's latest gradient in the pending dict
it aggregates over, and fires the aggregation; and a first submission with
any (possibly unexpected) worker id that does not complete the set is
simply inserted. -/
theorem easgd_duplicate_submission (n : Nat) (s : EASGD.CoordState)
    (w : Nat) (g0 g1 : Weights)
    (hdup : mapLookup w s.gradients = some g0)
    (hwait : s.gradients.length ≠ n) :
    mapLookup w (EASGD.update n w g1 s).gradients = some g1 ∧
    (EASGD.update n w g1 s).gradients.length = s.gradients.length ∧
    (EASGD.update n w g1 s).ready = false ∧
    (EASGD.update n w g1 s).iteration = s.iteration ∧
    (∀ w2 g2, w2 ≠ w →
      (mapInsert w2 g2 (EASGD.update n w g1 s).gradients).length = n →
      mapLookup w (mapInsert w2 g2 (EASGD.update n w g1 s).gradients) =
        some g1 ∧
      (EASGD.update n w2 g2 (EASGD.update n w g1 s)).ready = true) ∧
    (∀ w3 g3, mapLookup w3 s.gradients = none →
      (mapInsert w3 g3 s.gradients).length ≠ n →
      mapLookup w3 (EASGD.update n w3 g3 s).gradients = some g3) := by
  have hinslen : (mapInsert w g1 s.gradients).length = s.gradients.length :=
    mapInsert_length_of_lookup_some w g1 g0 s.gradients hdup
  have hnotfull : (mapInsert w g1 s.gradients).length ≠ n := by
    rw [hinslen]
    exact hwait
  rw [EASGD.update_of_not_full n w g1 s hnotfull]
  refine ⟨mapLookup_mapInsert_self w g1 s.gradients, hinslen, rfl, rfl,
    ?_, ?_⟩
  · intro w2 g2 hne2 hfull2
    constructor
    · rw [mapLookup_mapInsert_ne w2 w g2 _ (Ne.symm hne2)]
      exact mapLookup_mapInsert_self w g1 s.gradients
    · rw [EASGD.update_of_full n w2 g2 _ hfull2]
  · intro w3 g3 hnone3 hnotfull3
    rw [EASGD.update_of_not_full n w3 g3 s hnotfull3]
    exact mapLookup_mapInsert_self w3 g3 s.gradients

/-- Witness for C5 with N = 2: worker 0 already has gradient [[1]] pending
and submits [[2]]; worker 1 completing the set sees [[2]] for worker 0. -/
theorem easgd_duplicate_submission_witness :
    mapLookup 0 (EASGD.update 2 0 [[2]]
      ⟨[[9]], [(0, [[1]])], false, 0⟩).gradients = some [[2]] ∧
    (EASGD.update 2 0 [[2]]
      ⟨[[9]], [(0, [[1]])], false, 0⟩).gradients.length =
      ([(0, [[1]])] : List (Nat × Weights)).length ∧
    (EASGD.update 2 0 [[2]] ⟨[[9]], [(0, [[1]])], false, 0⟩).ready = false ∧
    (EASGD.update 2 0 [[2]] ⟨[[9]], [(0, [[1]])], false, 0⟩).iteration = 0 ∧
    (∀ w2 g2, w2 ≠ 0 →
      (mapInsert w2 g2 (EASGD.update 2 0 [[2]]
        ⟨[[9]], [(0, [[1]])], false, 0⟩).gradients).length = 2 →
      mapLookup 0 (mapInsert w2 g2 (EASGD.update 2 0 [[2]]
        ⟨[[9]], [(0, [[1]])], false, 0⟩).gradients) = some [[2]] ∧
      (EASGD.update 2 w2 g2 (EASGD.update 2 0 [[2]]
        ⟨[[9]], [(0, [[1]])], false, 0⟩)).ready = true) ∧
    (∀ w3 g3, mapLookup w3
        (⟨[[9]], [(0, [[1]])], false, 0⟩ : EASGD.CoordState).gradients = none →
      (mapInsert w3 g3 (⟨[[9]], [(0, [[1]])], false,
        0⟩ : EASGD.CoordState).gradients).length ≠ 2 →
      mapLookup w3 (EASGD.update 2 w3 g3
        ⟨[[9]], [(0, [[1]])], false, 0⟩).gradients = some g3) :=
  easgd_duplicate_submission 2 ⟨[[9]], [(0, [[1]])], false, 0⟩ 0 [[1]] [[2]]
    (by decide) (by decide)

/-- A Keras model, modelled by its two observables used in the source: its
architecture blob (`model.to_json()`) and its weights (`model.get_weights()`
/ `model.set_weights(w)`). -/
structure KerasModel where
  arch : String
  weights : Weights
deriving DecidableEq, Repr

/-- Observable `model.get_weights()`. -/
def get_weights (m : KerasModel) : Weights :=
  m.weights

/-- Observable `model.set_weights(w)`: replaces the model's weights. -/
def set_weights (m : KerasModel) (w : Weights) : KerasModel :=
  { m with weights := w }

/-- Observable `model.to_json()`: the architecture blob (weights are not
part of the JSON architecture description). -/
def to_json (m : KerasModel) : String :=
  m.arch

/-- External `keras.models.model_from_json`: builds a model with the given
architecture; the weights it starts with are whatever Keras's initializers
produce, abstracted as an arbitrary function `freshWeights` of the
architecture. -/
def model_from_json (freshWeights : String → Weights) (arch : String) :
    KerasModel :=
  { arch := arch, weights := freshWeights arch }

/-- The dictionary produced by `serialize_keras_model`. -/
structure SerializedModel where
  model : String
  weights : Weights
deriving DecidableEq, Repr

/-- Transcription of `serialize_keras_model`: a dict with the JSON
architecture under `model` and `model.get_weights()` under `weights`. -/
def serialize_keras_model (m : KerasModel) : SerializedModel :=
  { model := to_json m, weights := get_weights m }

/-- Transcription of `deserialize_keras_model`: rebuild the model from the
JSON architecture and set the stored weights. -/
def deserialize_keras_model (freshWeights : String → Weights)
    (d : SerializedModel) : KerasModel :=
  set_weights (model_from_json freshWeights d.model) d.weights

/-- C8: for every model snapshot, and whatever weights Keras initializes a
freshly rebuilt model with, deserializing the result of serializing a model
yields a model whose weight tensors equal the original model's weight
tensors. -/
theorem serialize_deserialize_roundtrip (freshWeights : String → Weights)
    (m : KerasModel) :
    get_weights (deserialize_keras_model freshWeights
      (serialize_keras_model m)) = get_weights m :=
  rfl

namespace EASGDWorker

/-- The `EASGDWorker` attributes touched during `train`: the local model
instance built from the serialized master model, and the
`center_variable` attribute written by `fetch_center_variable`. -/
structure WorkerState where
  model : KerasModel
  center_variable : Option Weights
deriving DecidableEq, Repr

/-- Transcription of `EASGDWorker.fetch_center_variable`: store the weights
fetched from the coordinator's `/center_variable` route into
`self.center_variable`.  The local model is not touched. -/
def fetch_center_variable (fetched : Weights) (ws : WorkerState) :
    WorkerState :=
  { ws with center_variable := some fetched }

/-- The observables of one `EASGDWorker.train` invocation. -/
structure WorkerTrace where
  preFetchWeights : Weights
  fetchedCenter : Option Weights
  startWeights : Weights
  postWeights : Weights
  gradient : Weights
  submitted : Nat × Weights
deriving DecidableEq, Repr

/-- Transcription of `EASGDWorker.train` (the parts that touch weights):
deserialize the master model, fetch the center variable, compile, capture
`W = model.get_weights()`, fit (modelled by an arbitrary external weight
transformation `fit`), compute `gradient = weights_after_fit - W`, and
submit `(index, gradient)`.  `preFetchWeights` records the model's weights
just before `fetch_center_variable` runs, `startWeights` records `W`. -/
def train (freshWeights : String → Weights) (master : SerializedModel)
    (centerFromCoordinator : Weights) (fit : Weights → Weights)
    (index : Nat) : WorkerTrace :=
  let model0 := deserialize_keras_model freshWeights master
  let ws0 : WorkerState := { model := model0, center_variable := none }
  let preFetch := get_weights ws0.model
  let ws1 := fetch_center_variable centerFromCoordinator ws0
  let W := get_weights ws1.model
  let post := fit W
  let gradient := subWeights post W
  { preFetchWeights := preFetch, fetchedCenter := ws1.center_variable,
    startWeights := W, postWeights := post, gradient := gradient,
    submitted := (index, gradient) }

end EASGDWorker

/-- C2 failing input: master model with weights [[0]], coordinator center
variable [[3]].  The worker stores the fetched center variable but never
calls `set_weights` with it, so training starts from the master model's
weights [[0]], not from the fetched [[3]]. -/
theorem easgd_worker_train_ignores_fetched_center :
    (EASGDWorker.train (fun _ => [[7]]) ⟨"net", [[0]]⟩ [[3]] id 0).fetchedCenter
      = some [[3]] ∧
    (EASGDWorker.train (fun _ => [[7]]) ⟨"net", [[0]]⟩ [[3]] id 0).startWeights
      = [[0]] ∧
    some (EASGDWorker.train (fun _ => [[7]]) ⟨"net", [[0]]⟩ [[3]] id
        0).startWeights ≠
      (EASGDWorker.train (fun _ => [[7]]) ⟨"net", [[0]]⟩ [[3]] id
        0).fetchedCenter := by
  refine ⟨rfl, rfl, ?_⟩
  intro h
  simp [EASGDWorker.train, EASGDWorker.fetch_center_variable,
    deserialize_keras_model, model_from_json, set_weights, get_weights] at h

/-- C9: in every worker training invocation the submitted gradient equals,
per weight tensor, the elementwise difference between the post-training
weights and the weights the model held before the center variable was
fetched, and it is submitted tagged with the worker's partition index. -/
theorem easgd_worker_gradient_is_post_minus_prefetch
    (freshWeights : String → Weights) (master : SerializedModel)
    (center : Weights) (fit : Weights → Weights) (idx : Nat) :
    (EASGDWorker.train freshWeights master center fit idx).gradient =
      subWeights
        (EASGDWorker.train freshWeights master center fit idx).postWeights
        (EASGDWorker.train freshWeights master center fit
          idx).preFetchWeights ∧
    (EASGDWorker.train freshWeights master center fit idx).submitted =
      (idx, (EASGDWorker.train freshWeights master center fit
        idx).gradient) :=
  ⟨rfl, rfl⟩

/-- A Spark dataframe, modelled by the one observable the EASGD trainer
uses: its list of partitions (each a list of rows). -/
structure DataFrame (ρ : Type) where
  partitions : List (List ρ)
deriving DecidableEq, Repr

/-- All rows of a dataframe, in partition order. -/
def allRows {ρ : Type} (df : DataFrame ρ) : List ρ :=
  df.partitions.flatten

/-- External Spark `repartition(n)`: returns a NEW dataframe holding the
same rows distributed over exactly n partitions (round-robin here; the
exact placement is Spark's business, the partition count is the contract).
Spark dataframes are immutable: the receiver is not changed. -/
def repartition {ρ : Type} (df : DataFrame ρ) (n : Nat) : DataFrame ρ :=
  ⟨(List.range n).map fun i =>
    ((allRows df).enum.filter fun p => p.1 % n == i).map Prod.snd⟩

theorem repartition_partition_count {ρ : Type} (df : DataFrame ρ) (n : Nat) :
    (repartition df n).partitions.length = n := by
  simp [repartition]

namespace EASGD

/-- Transcription of the data handling in `EASGD.train`: the statement
`data.repartition(self.num_workers)` computes a new dataframe whose value
is not bound to anything (dataframes are immutable, so `data` is
unchanged), and `data.rdd.mapPartitionsWithIndex(worker.train)` then
dispatches the worker over `data`'s own partitions.  The result is the
list of (partition index, partition rows) pairs handed to worker
invocations. -/
def train {ρ : Type} (numWorkers : Nat) (data : DataFrame ρ) :
    List (Nat × List ρ) :=
  let _repartitioned := repartition data numWorkers
  data.partitions.enum

end EASGD

/-- C7 failing input: a dataframe with 3 partitions and numWorkers = 2.
`EASGD.train` dispatches 3 worker invocations over the original
partitions, while the repartitioned dataframe it computed and discarded
has exactly 2; the workers therefore do not train on the repartitioned
data. -/
theorem easgd_train_dispatches_unrepartitioned_data :
    (EASGD.train 2 (⟨[[1], [2], [3]]⟩ : DataFrame Nat)).length = 3 ∧
    (repartition (⟨[[1], [2], [3]]⟩ : DataFrame Nat) 2).partitions.length
      = 2 ∧
    EASGD.train 2 (⟨[[1], [2], [3]]⟩ : DataFrame Nat) ≠
      (repartition (⟨[[1], [2], [3]]⟩ : DataFrame Nat) 2).partitions.enum := by
  refine ⟨rfl, rfl, ?_⟩
  decide

/-- Transcription of `new_dataframe_row`: take the row's field-to-value
mapping (`old_row.asDict(True)` copies it, so the old row is never
modified), set `column_name` to `column_value`, and build the new row from
the result. -/
def new_dataframe_row {α : Type} (old_row : List (String × α))
    (column_name : String) (column_value : α) : List (String × α) :=
  mapInsert column_name column_value old_row

/-- C10: the returned row maps the named column to the given value and
agrees with the old row on every other column.  (The embedding is a pure
function of the old row, which is therefore not modified.) -/
theorem new_dataframe_row_spec {α : Type} (old_row : List (String × α))
    (column_name : String) (column_value : α) :
    mapLookup column_name
        (new_dataframe_row old_row column_name column_value) =
      some column_value ∧
    ∀ c, c ≠ column_name →
      mapLookup c (new_dataframe_row old_row column_name column_value) =
        mapLookup c old_row :=
  ⟨mapLookup_mapInsert_self column_name column_value old_row,
   fun c hc => mapLookup_mapInsert_ne column_name c column_value old_row hc⟩

/-- Witness for C10: overwrite-free case on the row {a ↦ 1}, adding b ↦ 2. -/
theorem new_dataframe_row_spec_witness :
    mapLookup "b" (new_dataframe_row [("a", (1 : Int))] "b" 2) = some 2 ∧
    mapLookup "a" (new_dataframe_row [("a", (1 : Int))] "b" 2) =
      mapLookup "a" [("a", (1 : Int))] :=
  ⟨(new_dataframe_row_spec [("a", (1 : Int))] "b" 2).1,
   (new_dataframe_row_spec [("a", (1 : Int))] "b" 2).2 "a" (by decide)⟩

/-- The four fields of the coordinator's shared state named by the spec's
CoordinatorState. -/
inductive CoordField
  | centerVar
  | pendingGradients
  | readyFlag
  | iterationCounter
deriving DecidableEq, Repr, BEq

/-- One read or write of a CoordinatorState field performed by a route
handler, tagged with whether `self.mutex` is held at that program point. -/
structure StateAccess where
  field : CoordField
  isWrite : Bool
  underLock : Bool
deriving DecidableEq, Repr, BEq

/-- The CoordinatorState accesses of the `/update` route body, in program
order: `self.set_ready(False)` (a write of the ready flag inside
`with self.mutex`), `self.gradients[worker_id] = gradient` (write, no
lock), `len(self.gradients)` (read, no lock), the `self.iteration` read in
`process_gradients`'s print (no lock), `self.gradients = {}` (write, no
lock), `self.set_ready(True)` (locked write), `self.iteration += 1`
(write, no lock). -/
def updateAccesses : List StateAccess :=
  [⟨CoordField.readyFlag, true, true⟩,
   ⟨CoordField.pendingGradients, true, false⟩,
   ⟨CoordField.pendingGradients, false, false⟩,
   ⟨CoordField.iterationCounter, false, false⟩,
   ⟨CoordField.pendingGradients, true, false⟩,
   ⟨CoordField.readyFlag, true, true⟩,
   ⟨CoordField.iterationCounter, true, false⟩]

/-- The `/center_variable` route reads `self.model.get_weights()` inside
`with self.mutex`. -/
def centerVariableAccesses : List StateAccess :=
  [⟨CoordField.centerVar, false, true⟩]

/-- The `/ready` route reads `self.ready` via `get_ready`, inside
`with self.mutex`. -/
def readyRouteAccesses : List StateAccess :=
  [⟨CoordField.readyFlag, false, true⟩]

/-- All CoordinatorState accesses performed by the three coordinator
operations. -/
def coordinatorAccesses : List StateAccess :=
  centerVariableAccesses ++ updateAccesses ++ readyRouteAccesses

/-- C6 counterexample: not every CoordinatorState access performed by the
three coordinator operations holds the mutex — e.g. the pending-gradients
dict write `self.gradients[worker_id] = gradient` in `/update` runs
outside any `with self.mutex` block. -/
theorem easgd_lock_coverage_refuted :
    ¬ (∀ a ∈ coordinatorAccesses, a.underLock = true) := by
  intro h
  have hmem : (⟨CoordField.pendingGradients, true, false⟩ : StateAccess) ∈
      coordinatorAccesses := by
    simp [coordinatorAccesses, centerVariableAccesses, updateAccesses,
      readyRouteAccesses]
  exact absurd (h _ hmem) (by decide)

/-- C6 amended: an access of the three coordinator operations holds the
mutex exactly when it touches the ready flag or the center variable; every
access to the pending-gradients dict and to the iteration counter runs
without the lock. -/
theorem easgd_lock_coverage_actual :
    (coordinatorAccesses.all fun a =>
      a.underLock == (a.field == CoordField.readyFlag ||
        a.field == CoordField.centerVar)) = true := by
  decide
